import Mathlib

/-!
Verification of the two scripts in this repository against their
natural-language specification.

The development shallowly embeds `gemini_api_bridge.py` (the text-completion
flow) and `pixelart.py` (the image-generation flow).  JSON values are modelled
by the inductive type `Json` (numbers are modelled as integers), Python
exceptions by `PyExn`, the outcome of the single HTTP exchange by
`HttpOutcome`, and the filesystem visible to the image flow by `FS`.
Serialization (`json.dumps`) and parsing (`json.loads`) of JSON are modelled
by `dumps` and `loads`; `loads` mirrors the Python behaviour on duplicate
object keys (last value wins, first position kept).
-/

/-- JSON values as produced by parsing a response body.  Numbers are modelled
as integers. -/
inductive Json where
  | null
  | bool (b : Bool)
  | num (n : Int)
  | str (s : String)
  | arr (elems : List Json)
  | obj (fields : List (String × Json))

/-- First binding of a key in an object's field list (Python dict lookup;
objects built by `loads` have distinct keys). -/
def lookupKey (fields : List (String × Json)) (k : String) : Option Json :=
  (fields.find? (fun p => p.1 == k)).map (fun p => p.2)

/-- Python `k in d` for a dict `d`. -/
def containsKey (fields : List (String × Json)) (k : String) : Bool :=
  fields.any (fun p => p.1 == k)

/-- Decimal digit character. -/
def digitChar : Nat → Char
  | 0 => '0' | 1 => '1' | 2 => '2' | 3 => '3' | 4 => '4'
  | 5 => '5' | 6 => '6' | 7 => '7' | 8 => '8' | _ => '9'

/-- Decimal representation of a natural number, most significant digit
first. -/
def natToChars (n : Nat) : List Char :=
  if _h : n < 10 then [digitChar n]
  else natToChars (n / 10) ++ [digitChar (n % 10)]
decreasing_by exact Nat.div_lt_self (by omega) (by omega)

/-- Decimal representation of an integer (as printed by `json.dumps`). -/
def intToChars (n : Int) : List Char :=
  if n < 0 then '-' :: natToChars n.natAbs else natToChars n.toNat

/-- Lower-case hexadecimal digit character. -/
def hexDigitChar : Nat → Char
  | 0 => '0' | 1 => '1' | 2 => '2' | 3 => '3' | 4 => '4'
  | 5 => '5' | 6 => '6' | 7 => '7' | 8 => '8' | 9 => '9'
  | 10 => 'a' | 11 => 'b' | 12 => 'c' | 13 => 'd' | 14 => 'e' | _ => 'f'

/-- JSON string escaping of one character: quote, backslash and the common
control characters get two-character escapes, the remaining control
characters get a `\u00XY` escape, every other character is emitted
literally.  (`json.dumps` with its default `ensure_ascii=True` would also
`\u`-escape every non-ASCII character; both emissions are valid JSON for
the same string value, and the parse round trip is unaffected.) -/
def escapeChar (c : Char) : List Char :=
  if c = '"' then ['\\', '"']
  else if c = '\\' then ['\\', '\\']
  else if c = '\n' then ['\\', 'n']
  else if c = '\t' then ['\\', 't']
  else if c = '\r' then ['\\', 'r']
  else if c = '\x08' then ['\\', 'b']
  else if c = '\x0c' then ['\\', 'f']
  else if c.toNat < 32 then
    '\\' :: 'u' :: '0' :: '0' :: hexDigitChar (c.toNat / 16) :: [hexDigitChar (c.toNat % 16)]
  else [c]

/-- JSON string escaping of a character list. -/
def escapeList : List Char → List Char
  | [] => []
  | c :: cs => escapeChar c ++ escapeList cs

/-- Serialized JSON string literal (quotes included). -/
def dumpStr (s : String) : List Char := '"' :: escapeList s.data ++ ['"']

mutual

/-- Serialization of a JSON value, character by character, following
`json.dumps` with its default separators. -/
def dumpsC : Json → List Char
  | .null => "null".data
  | .bool true => "true".data
  | .bool false => "false".data
  | .num n => intToChars n
  | .str s => dumpStr s
  | .arr xs => '[' :: (dumpsArr xs ++ [']'])
  | .obj fs => '\x7b' :: (dumpsObj fs ++ ['\x7d'])

/-- Serialization of array elements, separated by a comma and a space. -/
def dumpsArr : List Json → List Char
  | [] => []
  | [x] => dumpsC x
  | x :: y :: xs => dumpsC x ++ ',' :: ' ' :: dumpsArr (y :: xs)

/-- Serialization of object members, separated by a comma and a space, each
key followed by a colon and a space. -/
def dumpsObj : List (String × Json) → List Char
  | [] => []
  | [(k, v)] => dumpStr k ++ ':' :: ' ' :: dumpsC v
  | (k, v) :: y :: xs => dumpStr k ++ ':' :: ' ' :: dumpsC v ++ ',' :: ' ' :: dumpsObj (y :: xs)

end

/-- Model of `json.dumps`. -/
def dumps (j : Json) : String := String.mk (dumpsC j)

/-- JSON whitespace test. -/
def isWsChar (c : Char) : Bool := c = '\t' || c = '\n' || c = '\r' || c = ' '

/-- Drop leading JSON whitespace. -/
def skipWs (cs : List Char) : List Char := cs.dropWhile isWsChar

/-- Value of a hexadecimal digit character. -/
def hexVal (c : Char) : Option Nat :=
  if c.isDigit then some (c.toNat - 48)
  else if 'a' ≤ c && c ≤ 'f' then some (c.toNat - 97 + 10)
  else if 'A' ≤ c && c ≤ 'F' then some (c.toNat - 65 + 10)
  else none

/-- Parse the remainder of a JSON string literal (the opening quote already
consumed), handling escape sequences; returns the characters and the rest of
the input. -/
def parseStrAux : List Char → Option (List Char × List Char)
  | [] => none
  | c :: rest =>
    if c = '"' then some ([], rest)
    else if c = '\\' then
      match rest with
      | [] => none
      | e :: rest2 =>
        if e = '"' then (parseStrAux rest2).map (fun p => ('"' :: p.1, p.2))
        else if e = '\\' then (parseStrAux rest2).map (fun p => ('\\' :: p.1, p.2))
        else if e = '/' then (parseStrAux rest2).map (fun p => ('/' :: p.1, p.2))
        else if e = 'n' then (parseStrAux rest2).map (fun p => ('\n' :: p.1, p.2))
        else if e = 't' then (parseStrAux rest2).map (fun p => ('\t' :: p.1, p.2))
        else if e = 'r' then (parseStrAux rest2).map (fun p => ('\r' :: p.1, p.2))
        else if e = 'b' then (parseStrAux rest2).map (fun p => ('\x08' :: p.1, p.2))
        else if e = 'f' then (parseStrAux rest2).map (fun p => ('\x0c' :: p.1, p.2))
        else if e = 'u' then
          match rest2 with
          | h1 :: h2 :: h3 :: h4 :: rest3 =>
            match hexVal h1, hexVal h2, hexVal h3, hexVal h4 with
            | some a, some b, some c2, some d =>
              (parseStrAux rest3).map
                (fun p => (Char.ofNat (4096 * a + 256 * b + 16 * c2 + d) :: p.1, p.2))
            | _, _, _, _ => none
          | _ => none
        else none
    else (parseStrAux rest).map (fun p => (c :: p.1, p.2))
termination_by structural cs => cs

/-- Split a maximal run of decimal digit characters off the input. -/
def parseDigs : List Char → List Char × List Char
  | [] => ([], [])
  | c :: cs =>
    if c.isDigit then
      let p := parseDigs cs
      (c :: p.1, p.2)
    else ([], c :: cs)

/-- Numeric value of a digit-character run. -/
def digsVal (ds : List Char) : Nat :=
  ds.foldl (fun a c => a * 10 + (c.toNat - 48)) 0

/-- Insert a key-value pair into an association list the way assignment to a
Python dict does: an existing key keeps its position and gets the new value,
a new key is appended. -/
def insertKV (acc : List (String × Json)) (p : String × Json) : List (String × Json) :=
  if acc.any (fun q => q.1 == p.1) then
    acc.map (fun q => if q.1 == p.1 then (q.1, p.2) else q)
  else acc ++ [p]

/-- Collapse duplicate keys the way building one Python dict from a member
list does. -/
def dedupeKV (ps : List (String × Json)) : List (String × Json) :=
  ps.foldl insertKV []

mutual

/-- Fuel-indexed parser for one JSON value; returns the value and the
unconsumed input. -/
def parseV : Nat → List Char → Option (Json × List Char)
  | 0, _ => none
  | Nat.succ f, cs =>
    match cs with
    | [] => none
    | c :: rest =>
      if c = 'n' then
        match rest with
        | 'u' :: 'l' :: 'l' :: r => some (.null, r)
        | _ => none
      else if c = 't' then
        match rest with
        | 'r' :: 'u' :: 'e' :: r => some (.bool true, r)
        | _ => none
      else if c = 'f' then
        match rest with
        | 'a' :: 'l' :: 's' :: 'e' :: r => some (.bool false, r)
        | _ => none
      else if c = '"' then
        match parseStrAux rest with
        | some (sc, r) => some (.str (String.mk sc), r)
        | none => none
      else if c = '[' then
        match rest with
        | [] => none
        | r0 :: rtail =>
          if r0 = ']' then some (.arr [], rtail)
          else
            match parseElems f (r0 :: rtail) with
            | some (xs, r) => some (.arr xs, r)
            | none => none
      else if c = '\x7b' then
        match rest with
        | [] => none
        | r0 :: rtail =>
          if r0 = '\x7d' then some (.obj [], rtail)
          else
            match parseMembers f (r0 :: rtail) with
            | some (ms, r) => some (.obj (dedupeKV ms), r)
            | none => none
      else if c = '-' then
        match parseDigs rest with
        | ([], _) => none
        | (d :: ds, r) => some (.num (-(digsVal (d :: ds) : Int)), r)
      else if c.isDigit then
        match parseDigs (c :: rest) with
        | ([], _) => none
        | (d :: ds, r) => some (.num (digsVal (d :: ds) : Int), r)
      else none

/-- Fuel-indexed parser for a non-empty comma-separated element list followed
by a closing bracket. -/
def parseElems : Nat → List Char → Option (List Json × List Char)
  | 0, _ => none
  | Nat.succ f, cs =>
    match parseV f cs with
    | some (v, r) =>
      match r with
      | ',' :: r2 =>
        match parseElems f (skipWs r2) with
        | some (xs, r3) => some (v :: xs, r3)
        | none => none
      | ']' :: r2 => some ([v], r2)
      | _ => none
    | none => none

/-- Fuel-indexed parser for a non-empty comma-separated member list followed
by a closing brace. -/
def parseMembers : Nat → List Char → Option (List (String × Json) × List Char)
  | 0, _ => none
  | Nat.succ f, cs =>
    match cs with
    | '"' :: rest =>
      match parseStrAux rest with
      | some (kc, r1) =>
        match r1 with
        | ':' :: r2 =>
          match parseV f (skipWs r2) with
          | some (v, r3) =>
            match r3 with
            | ',' :: r4 =>
              match parseMembers f (skipWs r4) with
              | some (ms, r5) => some ((String.mk kc, v) :: ms, r5)
              | none => none
            | '\x7d' :: r4 => some ([(String.mk kc, v)], r4)
            | _ => none
          | none => none
        | _ => none
      | none => none
    | _ => none

end

/-- Model of `json.loads`: parse one JSON value and require that at most
whitespace remains. -/
def loads (s : String) : Option Json :=
  match parseV (s.length + 2) s.data with
  | some (j, rest) => if (skipWs rest).isEmpty then some j else none
  | none => none

/-- Keys of an object's field list are pairwise distinct. -/
def keysDistinct : List (String × Json) → Bool
  | [] => true
  | (k, _) :: rest => !(rest.any (fun q => q.1 == k)) && keysDistinct rest

mutual

/-- Well-formed JSON value: every object has pairwise distinct keys (the
invariant of every value produced by `loads`, since Python dicts cannot hold
a key twice). -/
def wfJ : Json → Bool
  | .arr xs => wfArr xs
  | .obj fs => Bool.and (keysDistinct fs) (wfFields fs)
  | _ => true

/-- All elements well-formed. -/
def wfArr : List Json → Bool
  | [] => true
  | x :: xs => Bool.and (wfJ x) (wfArr xs)

/-- All field values well-formed. -/
def wfFields : List (String × Json) → Bool
  | [] => true
  | (_, v) :: xs => Bool.and (wfJ v) (wfFields xs)

end

/-- Python exceptions that the modelled code can raise. -/
inductive PyExn where
  | httpError (code : Nat) (body : String)
  | valueError (msg : String)
  | indexError (msg : String)
  | keyError (msg : String)
  | typeError (msg : String)
  | attributeError (msg : String)
  | unicodeDecodeError (msg : String)
  | otherError (msg : String)
deriving DecidableEq

/-- Message of an exception, as rendered by `str(e)`. -/
def PyExn.msg : PyExn → String
  | .httpError c b => "HTTP Error " ++ toString c ++ ": " ++ b
  | .valueError m => m
  | .indexError m => m
  | .keyError m => m
  | .typeError m => m
  | .attributeError m => m
  | .unicodeDecodeError m => m
  | .otherError m => m

/-- Python type name of a JSON value (as it appears in error messages). -/
def pyTypeName : Json → String
  | .null => "NoneType"
  | .bool _ => "bool"
  | .num _ => "int"
  | .str _ => "str"
  | .arr _ => "list"
  | .obj _ => "dict"

/-- Is the character-list `needle` a contiguous part of `hay`?  (Python
`sub in s` on strings.) -/
def subIn (needle : List Char) : List Char → Bool
  | [] => needle.isEmpty
  | c :: rest => needle.isPrefixOf (c :: rest) || subIn needle rest

/-- Python `key in x` for an arbitrary value: key membership for a dict,
element membership for a list, substring test for a string, `TypeError`
otherwise. -/
def pyContains (j : Json) (key : String) : Except PyExn Bool :=
  match j with
  | .obj fields => .ok (containsKey fields key)
  | .arr xs => .ok (xs.any (fun x => match x with | .str s => s == key | _ => false))
  | .str s => .ok (subIn key.data s.data)
  | _ => .error (.typeError ("argument of type \x27" ++ pyTypeName j ++ "\x27 is not iterable"))

/-- Python `x[key]` for a string key. -/
def pySubscript (j : Json) (key : String) : Except PyExn Json :=
  match j with
  | .obj fields =>
    match lookupKey fields key with
    | some v => .ok v
    | none => .error (.keyError key)
  | .arr _ => .error (.typeError "list indices must be integers or slices, not str")
  | .str _ => .error (.typeError "string indices must be integers")
  | _ => .error (.typeError ("\x27" ++ pyTypeName j ++ "\x27 object is not subscriptable"))

/-- Python `len(x)`. -/
def pyLen (j : Json) : Except PyExn Nat :=
  match j with
  | .obj fields => .ok fields.length
  | .arr xs => .ok xs.length
  | .str s => .ok s.length
  | _ => .error (.typeError ("object of type \x27" ++ pyTypeName j ++ "\x27 has no len()"))

/-- Python `x[0]`. -/
def pyIndex0 (j : Json) : Except PyExn Json :=
  match j with
  | .arr [] => .error (.indexError "list index out of range")
  | .arr (x :: _) => .ok x
  | .str s =>
    match s.data with
    | [] => .error (.indexError "string index out of range")
    | c :: _ => .ok (.str (String.mk [c]))
  | .obj _ => .error (.keyError "0")
  | _ => .error (.typeError ("\x27" ++ pyTypeName j ++ "\x27 object is not subscriptable"))

/-- Python `x.get(key, dflt)`: only dicts have the method. -/
def pyGet (j : Json) (key : String) (dflt : Json) : Except PyExn Json :=
  match j with
  | .obj fields => .ok ((lookupKey fields key).getD dflt)
  | _ => .error (.attributeError ("\x27" ++ pyTypeName j ++ "\x27 object has no attribute \x27get\x27"))

/-- Python truthiness test (`not x` is `pyFalsy x`). -/
def pyFalsy : Json → Bool
  | .null => true
  | .bool b => !b
  | .num n => n == 0
  | .str s => s.isEmpty
  | .arr xs => xs.isEmpty
  | .obj fs => fs.isEmpty

/-- Outcome of the single HTTP exchange performed by `call_gemini_api`,
viewed at the text level: a success body, an HTTP-level error response with
its status code and error body, or any other failure of the network call.
The bodies here are already decoded text; `RawHttpOutcome` below carries
the raw bytes and makes the two `decode("utf-8")` steps (lines 29 and 41)
explicit, which matters because the one at line 41 can itself raise. -/
inductive HttpOutcome where
  | httpError (code : Nat) (errorBody : String)
  | netError (msg : String)
  | success (body : String)

/-- The response-inspection logic inside the `try` block of
`call_gemini_api` (gemini_api_bridge.py, lines 31 to 39): if a first
candidate with nested content parts and a non-empty part list is present,
return the first part's `text` field with `""` as default, otherwise
serialize the whole response back. -/
def geminiExtract (rd : Json) : Except PyExn Json :=
  match pyContains rd "candidates" with
  | .error e => .error e
  | .ok false => .ok (.str (dumps rd))
  | .ok true =>
    match pySubscript rd "candidates" with
    | .error e => .error e
    | .ok cands =>
      match pyLen cands with
      | .error e => .error e
      | .ok n =>
        if n = 0 then .ok (.str (dumps rd))
        else
          match pyIndex0 cands with
          | .error e => .error e
          | .ok cand =>
            match pyContains cand "content" with
            | .error e => .error e
            | .ok false => .ok (.str (dumps rd))
            | .ok true =>
              match pySubscript cand "content" with
              | .error e => .error e
              | .ok content =>
                match pyContains content "parts" with
                | .error e => .error e
                | .ok false => .ok (.str (dumps rd))
                | .ok true =>
                  match pySubscript content "parts" with
                  | .error e => .error e
                  | .ok parts =>
                    match pyLen parts with
                    | .error e => .error e
                    | .ok np =>
                      if np = 0 then .ok (.str (dumps rd))
                      else
                        match pyIndex0 parts with
                        | .error e => .error e
                        | .ok p0 => pyGet p0 "text" (.str "")

/-- Body of the `try` block of `call_gemini_api`, over decoded text: the
network call, JSON-parsing the body, then response inspection.  An
`HTTPError`, a network failure, a malformed body and any structural
`TypeError` all surface as exceptions here; the byte-level decode steps
live in `call_gemini_api_raw`. -/
def geminiTry (o : HttpOutcome) : Except PyExn Json :=
  match o with
  | .success body =>
    match loads body with
    | some rd => geminiExtract rd
    | none => .error (.valueError "Expecting value: line 1 column 1 (char 0)")
  | .httpError c b => .error (.httpError c b)
  | .netError m => .error (.otherError m)

/-- Model of `call_gemini_api`: the `try` body with its two `except`
clauses, which turn an `HTTPError` into `"HTTP Error <status>: <body>"` and
any other exception into `"Error: <message>"`. -/
def call_gemini_api (o : HttpOutcome) : Except PyExn Json :=
  match geminiTry o with
  | .ok v => .ok v
  | .error (.httpError c b) => .ok (.str ("HTTP Error " ++ toString c ++ ": " ++ b))
  | .error e => .ok (.str ("Error: " ++ e.msg))

/-- Is a byte a UTF-8 continuation byte? -/
def utf8Cont (b : Nat) : Bool := 128 ≤ b && b ≤ 191

/-- Strict UTF-8 decoding of a byte sequence, as `bytes.decode("utf-8")`
performs it: ASCII bytes stand alone; two-, three- and four-byte sequences
must use the shortest form, surrogate code points are rejected, and any
other byte is an error (`none`). -/
def utf8Decode : List Nat → Option (List Char)
  | [] => some []
  | b :: rest =>
    if b ≤ 127 then
      (utf8Decode rest).map (fun cs => Char.ofNat b :: cs)
    else if 194 ≤ b && b ≤ 223 then
      match rest with
      | c1 :: rest2 =>
        if utf8Cont c1 then
          (utf8Decode rest2).map (fun cs => Char.ofNat ((b - 192) * 64 + (c1 - 128)) :: cs)
        else none
      | [] => none
    else if 224 ≤ b && b ≤ 239 then
      match rest with
      | c1 :: c2 :: rest2 =>
        if (if b = 224 then 160 ≤ c1 && c1 ≤ 191
            else if b = 237 then 128 ≤ c1 && c1 ≤ 159
            else utf8Cont c1) && utf8Cont c2 then
          (utf8Decode rest2).map
            (fun cs => Char.ofNat ((b - 224) * 4096 + (c1 - 128) * 64 + (c2 - 128)) :: cs)
        else none
      | _ => none
    else if 240 ≤ b && b ≤ 244 then
      match rest with
      | c1 :: c2 :: c3 :: rest2 =>
        if (if b = 240 then 144 ≤ c1 && c1 ≤ 191
            else if b = 244 then 128 ≤ c1 && c1 ≤ 143
            else utf8Cont c1) && utf8Cont c2 && utf8Cont c3 then
          (utf8Decode rest2).map
            (fun cs => Char.ofNat
              ((b - 240) * 262144 + (c1 - 128) * 4096 + (c2 - 128) * 64 + (c3 - 128)) :: cs)
        else none
      | _ => none
    else none
termination_by structural bs => bs

/-- The message of a `UnicodeDecodeError`, modelled without the offending
byte and position that CPython interpolates. -/
def utf8DecodeErrMsg : String :=
  "\x27utf-8\x27 codec can\x27t decode byte: invalid start byte"

/-- Outcome of the HTTP exchange at the byte level, before any text
decoding.  A success body is read and decoded at line 29, inside the
`try`; an error body is read and decoded at line 41, inside the
`except HTTPError` clause, where the `except` chain no longer protects
it. -/
inductive RawHttpOutcome where
  | httpError (code : Nat) (bodyBytes : List Nat)
  | netError (msg : String)
  | success (bodyBytes : List Nat)

/-- Model of `call_gemini_api` with the two `decode("utf-8")` steps made
explicit.  A success body that is not valid UTF-8 raises inside the `try`,
so the generic handler converts it to an error string; an HTTP error body
that is not valid UTF-8 raises inside the `except HTTPError` clause, and
that `UnicodeDecodeError` propagates out of the function uncaught. -/
def call_gemini_api_raw (o : RawHttpOutcome) : Except PyExn Json :=
  match o with
  | .httpError c bodyBytes =>
    match utf8Decode bodyBytes with
    | some cs => call_gemini_api (.httpError c (String.mk cs))
    | none => .error (.unicodeDecodeError utf8DecodeErrMsg)
  | .netError m => call_gemini_api (.netError m)
  | .success bodyBytes =>
    match utf8Decode bodyBytes with
    | some cs => call_gemini_api (.success (String.mk cs))
    | none => .ok (.str ("Error: " ++ utf8DecodeErrMsg))

/-- Value of one standard base64 alphabet character. -/
def b64CharVal (c : Char) : Option Nat :=
  if 'A' ≤ c && c ≤ 'Z' then some (c.toNat - 65)
  else if 'a' ≤ c && c ≤ 'z' then some (c.toNat - 97 + 26)
  else if '0' ≤ c && c ≤ '9' then some (c.toNat - 48 + 52)
  else if c = '+' then some 62
  else if c = '/' then some 63
  else none

/-- The state machine of CPython\x27s `binascii.a2b_base64` in its default
non-strict mode, one input character at a time.  `quadPos` counts the data
characters of the current quad, `leftchar` holds their pending low bits and
`pads` counts the pad characters seen while `quadPos ≥ 2`.  Characters
outside the alphabet are skipped; a `=` while fewer than two data
characters are pending is skipped as well; once padding completes a quad
the remaining input is ignored; input ending inside a quad is the
"Incorrect padding" error (or the impossible-length error after exactly
one data character). -/
def b64Loop (quadPos leftchar pads : Nat) (acc : List Nat) : List Char → Except String (List Nat)
  | [] =>
    if quadPos = 0 then .ok acc
    else if quadPos = 1 then
      .error "Invalid base64-encoded string: number of data characters cannot be 1 more than a multiple of 4"
    else .error "Incorrect padding"
  | c :: rest =>
    if c = '=' then
      if 2 ≤ quadPos then
        if 4 ≤ quadPos + (pads + 1) then .ok acc
        else b64Loop quadPos leftchar (pads + 1) acc rest
      else b64Loop quadPos leftchar pads acc rest
    else
      match b64CharVal c with
      | none => b64Loop quadPos leftchar pads acc rest
      | some v =>
        if quadPos = 0 then b64Loop 1 v 0 acc rest
        else if quadPos = 1 then b64Loop 2 (v % 16) 0 (acc ++ [leftchar * 4 + v / 16]) rest
        else if quadPos = 2 then b64Loop 3 (v % 4) 0 (acc ++ [leftchar * 16 + v / 4]) rest
        else b64Loop 0 0 0 (acc ++ [leftchar * 64 + v]) rest
termination_by structural cs => cs

/-- Model of `base64.b64decode` on a string with the default
`validate=False`: the bytes go straight to `binascii.a2b_base64`, which
skips unrecognized characters itself. -/
def b64decode (s : String) : Except String (List Nat) :=
  b64Loop 0 0 0 [] s.data

/-- Model of `base64.b64decode` applied to an arbitrary value: anything that
is not a string raises a `TypeError`. -/
def b64decodeAny (v : Json) : Except String (List Nat) :=
  match v with
  | .str s => b64decode s
  | v => .error ("argument should be a bytes-like object or ASCII string, not \x27" ++ pyTypeName v ++ "\x27")

/-- The candidate field names searched by the extractor, in source order. -/
def candidateKeys : List String := ["image_b64", "image", "base64", "data", "base64_images"]

/-- Value of the first candidate key present in the image object. -/
def searchKeys (imgFields : List (String × Json)) : List String → Option Json
  | [] => none
  | k :: ks =>
    match lookupKey imgFields k with
    | some v => some v
    | none => searchKeys imgFields ks

/-- The universal base64 extractor of pixelart.py (lines 45 to 66): the
resulting value of the `base64_images` variable, `none` when it is still
`None`.  Indexing `response_data["images"][0]` can raise, hence the
`Except`. -/
def extractB64 : Json → Except PyExn (Option Json)
  | .obj fields =>
    match lookupKey fields "images" with
    | some imgs =>
      match pyIndex0 imgs with
      | .error e => .error e
      | .ok imgObj =>
        match imgObj with
        | .obj imgFields => .ok (searchKeys imgFields candidateKeys)
        | .str s => .ok (some (.arr [.str s]))
        | _ => .ok none
    | none => .ok none
  | .arr xs => .ok (if xs.isEmpty then none else some (.arr xs))
  | .str s => .ok (some (.str s))
  | _ => .ok none

/-- Filesystem state visible to the image flow: existing directories and
files with their byte contents. -/
structure FS where
  dirs : List String
  files : List (String × List Nat)
deriving DecidableEq

/-- Model of `os.makedirs(d, exist_ok=True)`: create the directory if
missing, do nothing (and do not fail) if present. -/
def makedirs (fs : FS) (d : String) : FS :=
  if fs.dirs.contains d then fs else ⟨d :: fs.dirs, fs.files⟩

/-- Model of `open(p, "wb").write(content)`: replace whatever was at `p`. -/
def writeFileFS (fs : FS) (p : String) (content : List Nat) : FS :=
  ⟨fs.dirs, (p, content) :: fs.files.filter (fun q => q.1 != p)⟩

/-- Destination directory of the image flow. -/
def assetsFolder : String := "./assets"

/-- Fixed output path of the image flow. -/
def outputFile : String := "./assets/output1.png"

/-- Message of the `ValueError` raised when no payload was extracted. -/
def noImageMsg : String := "No base64 image found in API response!"

/-- The body of the `try` block of pixelart.py from the parsed response on
(lines 45 to 88): extract, check truthiness, decode (rewrapping any decode
exception in a `ValueError`), create the directory and write the file. -/
def tryImageFlow (rd : Json) (fs : FS) : Except PyExn (FS × List Nat) :=
  match extractB64 rd with
  | .error e => .error e
  | .ok none => .error (.valueError noImageMsg)
  | .ok (some v) =>
    if pyFalsy v then .error (.valueError noImageMsg)
    else
      match b64decodeAny v with
      | .error m => .error (.valueError ("Base64 decode failed: " ++ m))
      | .ok d =>
        let fs1 := makedirs fs assetsFolder
        let fs2 := writeFileFS fs1 outputFile d
        .ok (fs2, d)

/-- The image flow from the parsed response on, with the generic
`except Exception` handler of pixelart.py: returns the final filesystem and
the line printed for the human reader. -/
def runImageFlow (rd : Json) (fs : FS) : FS × String :=
  match tryImageFlow rd fs with
  | .ok (fs2, _) => (fs2, "Image saved to ./assets/output1.png")
  | .error e => (fs, "Unexpected error: " ++ e.msg)

/-- First usage line printed to standard error. -/
def usageLine1 : String := "Usage: gemini_api_bridge.py <api_key> <message>"

/-- Second usage line printed to standard error. -/
def usageLine2 : String := "Or set GEMINI_API_KEY and GEMINI_MESSAGE environment variables"

/-- Result of input resolution in the `__main__` block of
gemini_api_bridge.py: either the process exits early (with its exit code and
the lines written to standard output and standard error), or the API call
runs with the resolved key and message. -/
inductive MainResult where
  | exited (code : Nat) (stdoutLines stderrLines : List String)
  | run (apiKey message : String)
deriving DecidableEq

/-- Truthiness of `os.environ.get(...)`: `None` and the empty string are
falsy. -/
def optTruthy : Option String → Bool
  | none => false
  | some s => !s.isEmpty

/-- Model of the `__main__` block of gemini_api_bridge.py (lines 46 to 58):
environment variables are used when both are truthy; otherwise `sys.argv`
must have exactly three entries (program name plus two positional
arguments) or the process prints the usage lines to standard error and
exits with status 1. -/
def textMainResolve (envKey envMsg : Option String) (argv : List String) : MainResult :=
  if optTruthy envKey && optTruthy envMsg then
    .run (envKey.getD "") (envMsg.getD "")
  else if argv.length ≠ 3 then
    .exited 1 [] [usageLine1, usageLine2]
  else
    .run (argv.getD 1 "") (argv.getD 2 "")

/-- Head of the remaining input is not a decimal digit (the shape of every
remainder the serializer leaves after a number). -/
def noDigitHead : List Char → Bool
  | [] => true
  | c :: _ => !c.isDigit

mutual

/-- A fuel amount sufficient for `parseV` to reparse the serialization of a
value. -/
def fuelNeed : Json → Nat
  | .arr xs => Nat.succ (fuelNeedElems xs)
  | .obj fs => Nat.succ (fuelNeedMembers fs)
  | _ => 1

/-- Fuel sufficient for `parseElems` on a serialized element list. -/
def fuelNeedElems : List Json → Nat
  | [] => 1
  | x :: xs => Nat.succ (Nat.max (fuelNeed x) (fuelNeedElems xs))

/-- Fuel sufficient for `parseMembers` on a serialized member list. -/
def fuelNeedMembers : List (String × Json) → Nat
  | [] => 1
  | (_, v) :: xs => Nat.succ (Nat.max (fuelNeed v) (fuelNeedMembers xs))

end

/-- A parsed response that matches none of the three shapes the extractor
recognizes: a dict without an `images` key, an empty list, or a value that is
neither dict, list nor string.  (A dict with `images`, a non-empty list and a
string each match a recognized shape.) -/
def matchesNoShape : Json → Bool
  | .obj fields => !(containsKey fields "images")
  | .arr xs => xs.isEmpty
  | .str _ => false
  | _ => true

/-! Auxiliary lemmas about characters and digit runs. -/

theorem char_ofNat_toNat (c : Char) : Char.ofNat c.toNat = c := by
  apply Char.eq_of_val_eq
  have hv : c.toNat.isValidChar := by
    rcases c with ⟨v, hvd⟩
    exact hvd
  simp only [Char.ofNat, hv, dite_true]
  rcases c with ⟨⟨⟨n, hlt⟩⟩, hvd⟩
  rfl

theorem digitChar_isDigit (n : Nat) (h : n < 10) : (digitChar n).isDigit = true := by
  interval_cases n <;> decide

theorem digitChar_toNat (n : Nat) (h : n < 10) : (digitChar n).toNat = 48 + n := by
  interval_cases n <;> decide

theorem natToChars_ne_nil (n : Nat) : natToChars n ≠ [] := by
  unfold natToChars
  split <;> simp

theorem natToChars_digits (n : Nat) : ∀ c ∈ natToChars n, c.isDigit = true := by
  induction n using Nat.strong_induction_on with
  | _ n ih =>
    unfold natToChars
    split
    · rename_i h
      intro c hc
      simp only [List.mem_singleton] at hc
      subst hc
      exact digitChar_isDigit n h
    · rename_i h
      intro c hc
      rw [List.mem_append] at hc
      rcases hc with hc | hc
      · exact ih (n / 10) (Nat.div_lt_self (by omega) (by omega)) c hc
      · simp only [List.mem_singleton] at hc
        subst hc
        exact digitChar_isDigit _ (Nat.mod_lt _ (by omega))

theorem digsVal_append (ds : List Char) (c : Char) :
    digsVal (ds ++ [c]) = digsVal ds * 10 + (c.toNat - 48) := by
  simp [digsVal, List.foldl_append]

theorem digsVal_natToChars (n : Nat) : digsVal (natToChars n) = n := by
  induction n using Nat.strong_induction_on with
  | _ n ih =>
    unfold natToChars
    split
    · rename_i h
      simp [digsVal, digitChar_toNat n h]
    · rename_i h
      rw [digsVal_append, ih (n / 10) (Nat.div_lt_self (by omega) (by omega)),
        digitChar_toNat _ (Nat.mod_lt _ (by omega))]
      omega

theorem parseDigs_spec (ds rest : List Char) (hds : ∀ c ∈ ds, c.isDigit = true)
    (hr : noDigitHead rest = true) : parseDigs (ds ++ rest) = (ds, rest) := by
  induction ds with
  | nil =>
    cases rest with
    | nil => rfl
    | cons c t =>
      simp only [noDigitHead, Bool.not_eq_true'] at hr
      simp [parseDigs, hr]
  | cons c t ih =>
    have hc : c.isDigit = true := hds c (by simp)
    simp [parseDigs, hc, ih (fun x hx => hds x (by simp [hx]))]

theorem hexVal_hexDigitChar (n : Nat) (h : n < 16) : hexVal (hexDigitChar n) = some n := by
  interval_cases n <;> decide

theorem parseStrAux_escape (cs rest : List Char) :
    parseStrAux (escapeList cs ++ '"' :: rest) = some (cs, rest) := by
  induction cs with
  | nil =>
    show parseStrAux ('"' :: rest) = _
    rw [parseStrAux.eq_def]; simp
  | cons c t ih =>
    show parseStrAux ((escapeChar c ++ escapeList t) ++ '"' :: rest) = _
    rw [List.append_assoc]
    unfold escapeChar
    split_ifs with h1 h2 h3 h4 h5 h6 h7 h8
    · subst h1; rw [parseStrAux.eq_def]; simp [ih]
    · subst h2; rw [parseStrAux.eq_def]; simp [ih]
    · subst h3; rw [parseStrAux.eq_def]; simp [ih]
    · subst h4; rw [parseStrAux.eq_def]; simp [ih]
    · subst h5; rw [parseStrAux.eq_def]; simp [ih]
    · subst h6; rw [parseStrAux.eq_def]; simp [ih]
    · subst h7; rw [parseStrAux.eq_def]; simp [ih]
    · have hhi : c.toNat / 16 < 16 := by omega
      have hlo : c.toNat % 16 < 16 := by omega
      simp only [List.cons_append, List.nil_append]
      rw [parseStrAux.eq_def]
      norm_num
      rw [hexVal_hexDigitChar _ hhi, hexVal_hexDigitChar _ hlo]
      simp only [ih]
      have hv : 16 * (c.toNat / 16) + c.toNat % 16 = c.toNat := by omega
      simp [hexVal, hv, char_ofNat_toNat]
    · simp only [List.cons_append, List.nil_append]
      rw [parseStrAux.eq_def]
      simp [h1, h2, ih]

/-! Equation lemmas for the mutually recursive serializer. -/

theorem dumpsC_null : dumpsC .null = ['n', 'u', 'l', 'l'] := by rw [dumpsC.eq_def]

theorem dumpsC_true : dumpsC (.bool true) = ['t', 'r', 'u', 'e'] := by rw [dumpsC.eq_def]

theorem dumpsC_false : dumpsC (.bool false) = ['f', 'a', 'l', 's', 'e'] := by rw [dumpsC.eq_def]

theorem dumpsC_num (n : Int) : dumpsC (.num n) = intToChars n := by rw [dumpsC.eq_def]

theorem dumpsC_str (s : String) : dumpsC (.str s) = dumpStr s := by rw [dumpsC.eq_def]

theorem dumpsC_arr (xs : List Json) : dumpsC (.arr xs) = '[' :: dumpsArr xs ++ [']'] := by
  rw [dumpsC.eq_def]
  rfl

theorem dumpsC_obj (fs : List (String × Json)) :
    dumpsC (.obj fs) = '\x7b' :: dumpsObj fs ++ ['\x7d'] := by
  rw [dumpsC.eq_def]
  rfl

theorem dumpsArr_single (x : Json) : dumpsArr [x] = dumpsC x := by rw [dumpsArr.eq_def]

theorem dumpsArr_cons2 (x y : Json) (xs : List Json) :
    dumpsArr (x :: y :: xs) = dumpsC x ++ ',' :: ' ' :: dumpsArr (y :: xs) := by
  rw [dumpsArr.eq_def]

theorem dumpsObj_single (k : String) (v : Json) :
    dumpsObj [(k, v)] = dumpStr k ++ ':' :: ' ' :: dumpsC v := by rw [dumpsObj.eq_def]

theorem dumpsObj_cons2 (k : String) (v : Json) (y : String × Json) (xs : List (String × Json)) :
    dumpsObj ((k, v) :: y :: xs) = dumpStr k ++ ':' :: ' ' :: dumpsC v ++ ',' :: ' ' :: dumpsObj (y :: xs) := by
  rw [dumpsObj.eq_def]

theorem fuelNeed_base : fuelNeed .null = 1 ∧ (∀ b, fuelNeed (.bool b) = 1) ∧
    (∀ n, fuelNeed (.num n) = 1) ∧ (∀ s, fuelNeed (.str s) = 1) := by
  refine ⟨by rw [fuelNeed.eq_def], fun b => by rw [fuelNeed.eq_def], fun n => by rw [fuelNeed.eq_def], fun s => by rw [fuelNeed.eq_def]⟩

theorem fuelNeed_arr (xs : List Json) : fuelNeed (.arr xs) = 1 + fuelNeedElems xs := by
  rw [fuelNeed.eq_def]
  show Nat.succ (fuelNeedElems xs) = 1 + fuelNeedElems xs
  omega

theorem fuelNeed_obj (fs : List (String × Json)) :
    fuelNeed (.obj fs) = 1 + fuelNeedMembers fs := by
  rw [fuelNeed.eq_def]
  show Nat.succ (fuelNeedMembers fs) = 1 + fuelNeedMembers fs
  omega

theorem fuelNeedElems_nil : fuelNeedElems [] = 1 := by rw [fuelNeedElems.eq_def]

theorem fuelNeedElems_cons (x : Json) (xs : List Json) :
    fuelNeedElems (x :: xs) = 1 + max (fuelNeed x) (fuelNeedElems xs) := by
  rw [fuelNeedElems.eq_def]
  show Nat.succ (max (fuelNeed x) (fuelNeedElems xs)) = _
  omega

theorem fuelNeedMembers_nil : fuelNeedMembers [] = 1 := by rw [fuelNeedMembers.eq_def]

theorem fuelNeedMembers_cons (k : String) (v : Json) (xs : List (String × Json)) :
    fuelNeedMembers ((k, v) :: xs) = 1 + max (fuelNeed v) (fuelNeedMembers xs) := by
  rw [fuelNeedMembers.eq_def]
  show Nat.succ (max (fuelNeed v) (fuelNeedMembers xs)) = _
  omega

theorem fuelNeed_pos (j : Json) : 1 ≤ fuelNeed j := by
  cases j with
  | null => rw [fuelNeed_base.1]
  | bool b => rw [fuelNeed_base.2.1 b]
  | num n => rw [fuelNeed_base.2.2.1 n]
  | str s => rw [fuelNeed_base.2.2.2 s]
  | arr xs => rw [fuelNeed_arr]; omega
  | obj fs => rw [fuelNeed_obj]; omega

theorem fuelNeedElems_pos (xs : List Json) : 1 ≤ fuelNeedElems xs := by
  cases xs with
  | nil => rw [fuelNeedElems_nil]
  | cons x t => rw [fuelNeedElems_cons]; omega

theorem fuelNeedMembers_pos (fs : List (String × Json)) : 1 ≤ fuelNeedMembers fs := by
  cases fs with
  | nil => rw [fuelNeedMembers_nil]
  | cons p t => obtain ⟨k, v⟩ := p; rw [fuelNeedMembers_cons]; omega

/-! Head characterization of serialized values. -/

theorem isDigit_facts (d : Char) (h : d.isDigit = true) :
    d ≠ ']' ∧ isWsChar d = false := by
  refine ⟨fun hd => by subst hd; exact absurd h (by decide), ?_⟩
  by_contra hw
  rw [Bool.not_eq_false] at hw
  simp only [isWsChar, Bool.or_eq_true, decide_eq_true_eq] at hw
  rcases hw with ((rfl | rfl) | rfl) | rfl <;> exact absurd h (by decide)

theorem natToChars_head (n : Nat) :
    ∃ d t, natToChars n = d :: t ∧ d.isDigit = true := by
  rcases hne : natToChars n with _ | ⟨d, t⟩
  · exact absurd hne (natToChars_ne_nil n)
  · exact ⟨d, t, rfl, natToChars_digits n d (by rw [hne]; simp)⟩

theorem dumpsC_head (j : Json) :
    ∃ c t, dumpsC j = c :: t ∧ c ≠ ']' ∧ isWsChar c = false := by
  cases j with
  | null => exact ⟨'n', _, dumpsC_null, by decide, by decide⟩
  | bool b =>
    cases b with
    | true => exact ⟨'t', _, dumpsC_true, by decide, by decide⟩
    | false => exact ⟨'f', _, dumpsC_false, by decide, by decide⟩
  | num n =>
    rw [dumpsC_num]
    unfold intToChars
    split_ifs with hneg
    · exact ⟨'-', _, rfl, by decide, by decide⟩
    · obtain ⟨d, t, hd, hdig⟩ := natToChars_head n.toNat
      obtain ⟨h1, h2⟩ := isDigit_facts d hdig
      exact ⟨d, t, hd, h1, h2⟩
  | str s => exact ⟨'"', _, dumpsC_str s, by decide, by decide⟩
  | arr xs => exact ⟨'[', _, dumpsC_arr xs, by decide, by decide⟩
  | obj fs => exact ⟨'\x7b', _, dumpsC_obj fs, by decide, by decide⟩

/-! Lemmas about key distinctness and Python dict construction. -/

theorem keysDistinct_iff (l : List (String × Json)) :
    keysDistinct l = true ↔ (l.map (fun q => q.1)).Nodup := by
  induction l with
  | nil => simp [keysDistinct]
  | cons p t ih =>
    obtain ⟨k, v⟩ := p
    simp only [keysDistinct, Bool.and_eq_true, Bool.not_eq_true', List.any_eq_false,
      List.map_cons, List.nodup_cons, ih]
    constructor
    · rintro ⟨h1, h2⟩
      refine ⟨fun hmem => ?_, h2⟩
      obtain ⟨q, hq, hqk⟩ := List.mem_map.mp hmem
      have := h1 q hq
      simp [hqk] at this
    · rintro ⟨h1, h2⟩
      refine ⟨fun q hq => ?_, h2⟩
      by_cases hqe : q.1 = k
      · exact absurd (List.mem_map.mpr ⟨q, hq, hqe⟩) h1
      · simp [hqe]

theorem insertKV_fst (acc : List (String × Json)) (p : String × Json) :
    (insertKV acc p).map (fun q => q.1) =
      if acc.any (fun q => q.1 == p.1) then acc.map (fun q => q.1)
      else acc.map (fun q => q.1) ++ [p.1] := by
  unfold insertKV
  split_ifs with h
  · rw [List.map_map]
    apply List.map_congr_left
    intro q _
    simp only [Function.comp_apply]
    split_ifs with hq <;> rfl
  · simp

theorem foldl_insertKV_app (ps : List (String × Json)) (acc : List (String × Json))
    (hd : keysDistinct ps = true)
    (hdisj : ∀ q ∈ acc, ∀ p ∈ ps, (q.1 == p.1) = false) :
    ps.foldl insertKV acc = acc ++ ps := by
  induction ps generalizing acc with
  | nil => simp
  | cons p t ih =>
    obtain ⟨k, v⟩ := p
    have hnot : acc.any (fun q => q.1 == k) = false := by
      rw [List.any_eq_false]
      intro q hq
      simpa using hdisj q hq (k, v) (by simp)
    have hstep : insertKV acc (k, v) = acc ++ [(k, v)] := by
      simp [insertKV, hnot]
    simp only [keysDistinct, Bool.and_eq_true, Bool.not_eq_true', List.any_eq_false] at hd
    have hdisj2 : ∀ q ∈ acc ++ [(k, v)], ∀ r ∈ t, (q.1 == r.1) = false := by
      intro q hq r hr
      rcases List.mem_append.mp hq with h | h
      · exact hdisj q h r (by simp [hr])
      · simp only [List.mem_singleton] at h
        subst h
        have hrk := hd.1 r hr
        simp only [beq_eq_false_iff_ne] at hrk ⊢
        exact fun hc => hrk (by simp [hc])
    rw [List.foldl_cons, hstep, ih (acc ++ [(k, v)]) hd.2 hdisj2]
    simp

theorem dedupeKV_of_distinct (ps : List (String × Json)) (h : keysDistinct ps = true) :
    dedupeKV ps = ps := by
  have := foldl_insertKV_app ps [] h (by simp)
  simpa [dedupeKV] using this

/-! Equation lemmas and pointwise characterizations of well-formedness. -/

theorem wfJ_null : wfJ .null = true := by rw [wfJ.eq_def]

theorem wfJ_bool (b : Bool) : wfJ (.bool b) = true := by rw [wfJ.eq_def]

theorem wfJ_num (n : Int) : wfJ (.num n) = true := by rw [wfJ.eq_def]

theorem wfJ_str (s : String) : wfJ (.str s) = true := by rw [wfJ.eq_def]

theorem wfJ_arr (xs : List Json) : wfJ (.arr xs) = wfArr xs := by rw [wfJ.eq_def]

theorem wfJ_obj (fs : List (String × Json)) :
    wfJ (.obj fs) = (keysDistinct fs && wfFields fs) := by rw [wfJ.eq_def]

theorem wfArr_nil : wfArr [] = true := by rw [wfArr.eq_def]

theorem wfArr_cons (x : Json) (xs : List Json) :
    wfArr (x :: xs) = (wfJ x && wfArr xs) := by rw [wfArr.eq_def]

theorem wfFields_nil : wfFields [] = true := by rw [wfFields.eq_def]

theorem wfFields_cons (k : String) (v : Json) (xs : List (String × Json)) :
    wfFields ((k, v) :: xs) = (wfJ v && wfFields xs) := by rw [wfFields.eq_def]

theorem wfArr_iff (xs : List Json) : wfArr xs = true ↔ ∀ x ∈ xs, wfJ x = true := by
  induction xs with
  | nil => simp [wfArr_nil]
  | cons x t ih => rw [wfArr_cons]; simp [ih]

theorem wfFields_iff (l : List (String × Json)) :
    wfFields l = true ↔ ∀ q ∈ l, wfJ q.2 = true := by
  induction l with
  | nil => simp [wfFields_nil]
  | cons p t ih =>
    obtain ⟨k, v⟩ := p
    rw [wfFields_cons]
    simp [ih]

theorem wfFields_insertKV (acc : List (String × Json)) (p : String × Json)
    (ha : wfFields acc = true) (hp : wfJ p.2 = true) :
    wfFields (insertKV acc p) = true := by
  rw [wfFields_iff] at ha ⊢
  intro q hq
  unfold insertKV at hq
  split_ifs at hq with h
  · obtain ⟨r, hr, hrq⟩ := List.mem_map.mp hq
    split_ifs at hrq with hre
    · rw [← hrq]
      exact hp
    · rw [← hrq]
      exact ha r hr
  · rcases List.mem_append.mp hq with h2 | h2
    · exact ha q h2
    · simp only [List.mem_singleton] at h2
      subst h2
      exact hp

theorem keysNodup_insertKV (acc : List (String × Json)) (p : String × Json)
    (h : (acc.map (fun q => q.1)).Nodup) :
    ((insertKV acc p).map (fun q => q.1)).Nodup := by
  rw [insertKV_fst]
  split_ifs with hmem
  · exact h
  · rw [List.nodup_append]
    refine ⟨h, List.nodup_singleton _, ?_⟩
    intro a ha hb
    simp only [List.mem_singleton] at hb
    subst hb
    obtain ⟨r, hr, hra⟩ := List.mem_map.mp ha
    rw [Bool.not_eq_true, List.any_eq_false] at hmem
    have := hmem r hr
    simp [hra] at this

theorem dedupe_fold_inv (ms : List (String × Json)) :
    ∀ acc, (∀ q ∈ ms, wfJ q.2 = true) → (acc.map (fun q => q.1)).Nodup →
      wfFields acc = true →
      ((ms.foldl insertKV acc).map (fun q => q.1)).Nodup ∧
        wfFields (ms.foldl insertKV acc) = true := by
  induction ms with
  | nil => exact fun acc _ h1 h2 => ⟨h1, h2⟩
  | cons p t ih =>
    intro acc hv h1 h2
    rw [List.foldl_cons]
    exact ih (insertKV acc p) (fun q hq => hv q (by simp [hq]))
      (keysNodup_insertKV acc p h1)
      (wfFields_insertKV acc p h2 (hv p (by simp)))

theorem wfJ_dedupeKV (ms : List (String × Json)) (hv : ∀ q ∈ ms, wfJ q.2 = true) :
    wfJ (.obj (dedupeKV ms)) = true := by
  obtain ⟨h1, h2⟩ := dedupe_fold_inv ms [] hv (by simp) wfFields_nil
  rw [wfJ_obj, Bool.and_eq_true, keysDistinct_iff]
  exact ⟨h1, h2⟩

/-! Unfolding lemmas for the fuel-indexed parser. -/

theorem parseV_zero (cs : List Char) : parseV 0 cs = none := rfl

theorem parseV_nil (f : Nat) : parseV (Nat.succ f) [] = none := rfl

theorem parseV_succ (f : Nat) (c : Char) (rest : List Char) :
    parseV (Nat.succ f) (c :: rest) =
      (if c = 'n' then
        match rest with
        | 'u' :: 'l' :: 'l' :: r => some (.null, r)
        | _ => none
      else if c = 't' then
        match rest with
        | 'r' :: 'u' :: 'e' :: r => some (.bool true, r)
        | _ => none
      else if c = 'f' then
        match rest with
        | 'a' :: 'l' :: 's' :: 'e' :: r => some (.bool false, r)
        | _ => none
      else if c = '"' then
        match parseStrAux rest with
        | some (sc, r) => some (.str (String.mk sc), r)
        | none => none
      else if c = '[' then
        match rest with
        | [] => none
        | r0 :: rtail =>
          if r0 = ']' then some (.arr [], rtail)
          else
            match parseElems f (r0 :: rtail) with
            | some (xs, r) => some (.arr xs, r)
            | none => none
      else if c = '\x7b' then
        match rest with
        | [] => none
        | r0 :: rtail =>
          if r0 = '\x7d' then some (.obj [], rtail)
          else
            match parseMembers f (r0 :: rtail) with
            | some (ms, r) => some (.obj (dedupeKV ms), r)
            | none => none
      else if c = '-' then
        match parseDigs rest with
        | ([], _) => none
        | (d :: ds, r) => some (.num (-(digsVal (d :: ds) : Int)), r)
      else if c.isDigit then
        match parseDigs (c :: rest) with
        | ([], _) => none
        | (d :: ds, r) => some (.num (digsVal (d :: ds) : Int), r)
      else none) := rfl

theorem parseElems_zero (cs : List Char) : parseElems 0 cs = none := rfl

theorem parseElems_succ (f : Nat) (cs : List Char) :
    parseElems (Nat.succ f) cs =
      (match parseV f cs with
      | some (v, r) =>
        match r with
        | ',' :: r2 =>
          match parseElems f (skipWs r2) with
          | some (xs, r3) => some (v :: xs, r3)
          | none => none
        | ']' :: r2 => some ([v], r2)
        | _ => none
      | none => none) := rfl

theorem parseMembers_zero (cs : List Char) : parseMembers 0 cs = none := rfl

theorem parseMembers_succ (f : Nat) (cs : List Char) :
    parseMembers (Nat.succ f) cs =
      (match cs with
      | '"' :: rest =>
        match parseStrAux rest with
        | some (kc, r1) =>
          match r1 with
          | ':' :: r2 =>
            match parseV f (skipWs r2) with
            | some (v, r3) =>
              match r3 with
              | ',' :: r4 =>
                match parseMembers f (skipWs r4) with
                | some (ms, r5) => some ((String.mk kc, v) :: ms, r5)
                | none => none
              | '\x7d' :: r4 => some ([(String.mk kc, v)], r4)
              | _ => none
            | none => none
          | _ => none
        | none => none
      | _ => none) := rfl

/-! The parser only produces well-formed values. -/

theorem parse_wf (fuel : Nat) :
    (∀ cs j r, parseV fuel cs = some (j, r) → wfJ j = true) ∧
    (∀ cs xs r, parseElems fuel cs = some (xs, r) → wfArr xs = true) ∧
    (∀ cs ms r, parseMembers fuel cs = some (ms, r) → (∀ q ∈ ms, wfJ q.2 = true)) := by
  induction fuel with
  | zero =>
    refine ⟨?_, ?_, ?_⟩ <;> intro cs a r h
    · rw [parseV_zero] at h; exact absurd h (by simp)
    · rw [parseElems_zero] at h; exact absurd h (by simp)
    · rw [parseMembers_zero] at h; exact absurd h (by simp)
  | succ f ih =>
    obtain ⟨ihV, ihE, ihM⟩ := ih
    refine ⟨?_, ?_, ?_⟩
    · intro cs j r h
      cases cs with
      | nil => rw [parseV_nil] at h; exact absurd h (by simp)
      | cons c rest =>
        rw [parseV_succ] at h
        split_ifs at h with h1 h2 h3 h4 h5 h6 h7 h8
        · split at h
          · injection h with hp
            injection hp with h' h''
            rw [← h']
            exact wfJ_null
          · exact absurd h (by simp)
        · split at h
          · injection h with hp
            injection hp with h' h''
            rw [← h']
            exact wfJ_bool true
          · exact absurd h (by simp)
        · split at h
          · injection h with hp
            injection hp with h' h''
            rw [← h']
            exact wfJ_bool false
          · exact absurd h (by simp)
        · split at h
          · injection h with hp
            injection hp with h' h''
            rw [← h']
            exact wfJ_str _
          · exact absurd h (by simp)
        · split at h
          · exact absurd h (by simp)
          · split_ifs at h with hrb
            · injection h with hp
              injection hp with h' h''
              rw [← h', wfJ_arr]
              exact wfArr_nil
            · split at h
              · rename_i xs r2 heq
                injection h with hp
                injection hp with h' h''
                rw [← h', wfJ_arr]
                exact ihE _ _ _ heq
              · exact absurd h (by simp)
        · split at h
          · exact absurd h (by simp)
          · split_ifs at h with hrb
            · injection h with hp
              injection hp with h' h''
              rw [← h', wfJ_obj]
              decide
            · split at h
              · rename_i ms r2 heq
                injection h with hp
                injection hp with h' h''
                rw [← h']
                exact wfJ_dedupeKV ms (ihM _ _ _ heq)
              · exact absurd h (by simp)
        · split at h
          · exact absurd h (by simp)
          · injection h with hp
            injection hp with h' h''
            rw [← h']
            exact wfJ_num _
        · split at h
          · exact absurd h (by simp)
          · injection h with hp
            injection hp with h' h''
            rw [← h']
            exact wfJ_num _
    · intro cs xs r h
      rw [parseElems_succ] at h
      split at h
      · rename_i v r1 heqV
        split at h
        · split at h
          · rename_i xs2 r3 heqE
            injection h with hp
            injection hp with h' h''
            rw [← h', wfArr_cons, Bool.and_eq_true]
            exact ⟨ihV _ _ _ heqV, ihE _ _ _ heqE⟩
          · exact absurd h (by simp)
        · injection h with hp
          injection hp with h' h''
          rw [← h', wfArr_cons, Bool.and_eq_true]
          exact ⟨ihV _ _ _ heqV, wfArr_nil⟩
        · exact absurd h (by simp)
      · exact absurd h (by simp)
    · intro cs ms r h
      rw [parseMembers_succ] at h
      split at h
      · split at h
        · rename_i kc r1 heqS
          split at h
          · split at h
            · rename_i v r3 heqV
              split at h
              · split at h
                · rename_i ms2 r5 heqM
                  injection h with hp
                  injection hp with h' h''
                  rw [← h']
                  intro q hq
                  rcases List.mem_cons.mp hq with hq | hq
                  · rw [hq]
                    exact ihV _ _ _ heqV
                  · exact ihM _ _ _ heqM q hq
                · exact absurd h (by simp)
              · injection h with hp
                injection hp with h' h''
                rw [← h']
                intro q hq
                simp only [List.mem_singleton] at hq
                rw [hq]
                exact ihV _ _ _ heqV
              · exact absurd h (by simp)
            · exact absurd h (by simp)
          · exact absurd h (by simp)
        · exact absurd h (by simp)
      · exact absurd h (by simp)

/-- Every value produced by `loads` is well-formed: Python dicts cannot hold
a key twice. -/
theorem loads_wf (s : String) (j : Json) (h : loads s = some j) : wfJ j = true := by
  unfold loads at h
  split at h
  · rename_i j' rest heq
    split_ifs at h
    injection h with h'
    rw [← h']
    exact (parse_wf _).1 _ _ _ heq
  · exact absurd h (by simp)

/-! Remaining serializer equations and whitespace lemmas. -/

theorem dumpsArr_nil : dumpsArr [] = [] := by rw [dumpsArr.eq_def]

theorem dumpsObj_nil : dumpsObj [] = [] := by rw [dumpsObj.eq_def]

theorem dumpsObj_head (fs : List (String × Json)) (h : fs ≠ []) :
    ∃ t, dumpsObj fs = '"' :: t := by
  cases fs with
  | nil => exact absurd rfl h
  | cons p t =>
    obtain ⟨k, v⟩ := p
    cases t with
    | nil =>
      rw [dumpsObj_single]
      unfold dumpStr
      simp only [List.cons_append]
      exact ⟨_, rfl⟩
    | cons y t2 =>
      rw [dumpsObj_cons2]
      unfold dumpStr
      simp only [List.cons_append]
      exact ⟨_, rfl⟩

theorem skipWs_space (l : List Char) : skipWs (' ' :: l) = skipWs l := by
  unfold skipWs
  rw [List.dropWhile_cons, if_pos (by decide : isWsChar ' ' = true)]

theorem skipWs_head (c : Char) (l : List Char) (h : isWsChar c = false) :
    skipWs (c :: l) = c :: l := by
  simp [skipWs, List.dropWhile_cons, h]

theorem parseV_digit (f : Nat) (c : Char) (rest : List Char) (hc : c.isDigit = true) :
    parseV (Nat.succ f) (c :: rest) =
      (match parseDigs (c :: rest) with
      | ([], _) => none
      | (d :: ds, r) => some (.num (digsVal (d :: ds) : Int), r)) := by
  rw [parseV_succ]
  have h1 : ¬(c = 'n') := fun h => by subst h; exact absurd hc (by decide)
  have h2 : ¬(c = 't') := fun h => by subst h; exact absurd hc (by decide)
  have h3 : ¬(c = 'f') := fun h => by subst h; exact absurd hc (by decide)
  have h4 : ¬(c = '"') := fun h => by subst h; exact absurd hc (by decide)
  have h5 : ¬(c = '[') := fun h => by subst h; exact absurd hc (by decide)
  have h6 : ¬(c = '\x7b') := fun h => by subst h; exact absurd hc (by decide)
  have h7 : ¬(c = '-') := fun h => by subst h; exact absurd hc (by decide)
  rw [if_neg h1, if_neg h2, if_neg h3, if_neg h4, if_neg h5, if_neg h6, if_neg h7, if_pos hc]

theorem dumpsArr_head (xs : List Json) (h : xs ≠ []) :
    ∃ c0 t0, dumpsArr xs = c0 :: t0 ∧ c0 ≠ ']' ∧ isWsChar c0 = false := by
  cases xs with
  | nil => exact absurd rfl h
  | cons x t =>
    obtain ⟨c0, t0, hc0, hne, hws⟩ := dumpsC_head x
    cases t with
    | nil =>
      rw [dumpsArr_single]
      exact ⟨c0, t0, hc0, hne, hws⟩
    | cons y t2 =>
      rw [dumpsArr_cons2, hc0]
      exact ⟨c0, t0 ++ ',' :: ' ' :: dumpsArr (y :: t2), by simp, hne, hws⟩

theorem parseV_num_case (f : Nat) (n : Int) (rest : List Char) (hnd : noDigitHead rest = true) :
    parseV (Nat.succ f) (intToChars n ++ rest) = some (.num n, rest) := by
  unfold intToChars
  split_ifs with hneg
  · simp only [List.cons_append]
    rw [parseV_succ]
    rw [if_neg (by decide), if_neg (by decide), if_neg (by decide), if_neg (by decide),
      if_neg (by decide), if_neg (by decide), if_pos rfl]
    obtain ⟨d, ds, hds, hdig⟩ := natToChars_head n.natAbs
    rw [parseDigs_spec _ _ (natToChars_digits _) hnd, hds]
    show some (Json.num (-(digsVal (d :: ds) : Int)), rest) = _
    rw [← hds, digsVal_natToChars]
    have : ((n.natAbs : Nat) : Int) = -n := by omega
    rw [this, neg_neg]
  · obtain ⟨d, ds, hds, hdig⟩ := natToChars_head n.toNat
    rw [hds]
    simp only [List.cons_append]
    rw [parseV_digit f d (ds ++ rest) hdig, ← List.cons_append, ← hds,
      parseDigs_spec _ _ (natToChars_digits _) hnd, hds]
    show some (Json.num (digsVal (d :: ds) : Int), rest) = _
    rw [← hds, digsVal_natToChars]
    have : ((n.toNat : Nat) : Int) = n := by omega
    rw [this]

theorem parseMembers_cons_quote (f : Nat) (rest : List Char) :
    parseMembers (Nat.succ f) ('"' :: rest) =
      (match parseStrAux rest with
      | some (kc, r1) =>
        match r1 with
        | ':' :: r2 =>
          match parseV f (skipWs r2) with
          | some (v, r3) =>
            match r3 with
            | ',' :: r4 =>
              match parseMembers f (skipWs r4) with
              | some (ms, r5) => some ((String.mk kc, v) :: ms, r5)
              | none => none
            | '\x7d' :: r4 => some ([(String.mk kc, v)], r4)
            | _ => none
          | none => none
        | _ => none
      | none => none) := rfl

set_option maxHeartbeats 1000000 in
theorem parse_dumps (fuel : Nat) :
    (∀ j rest, wfJ j = true → fuelNeed j ≤ fuel → noDigitHead rest = true →
      parseV fuel (dumpsC j ++ rest) = some (j, rest)) ∧
    (∀ xs rest, wfArr xs = true → xs ≠ [] → fuelNeedElems xs ≤ fuel →
      parseElems fuel (dumpsArr xs ++ ']' :: rest) = some (xs, rest)) ∧
    (∀ ms rest, wfFields ms = true → ms ≠ [] → fuelNeedMembers ms ≤ fuel →
      parseMembers fuel (dumpsObj ms ++ '\x7d' :: rest) = some (ms, rest)) := by
  induction fuel with
  | zero =>
    refine ⟨fun j rest _ hf _ => ?_, fun xs rest _ _ hf => ?_, fun ms rest _ _ hf => ?_⟩
    · exact absurd hf (by have := fuelNeed_pos j; omega)
    · exact absurd hf (by have := fuelNeedElems_pos xs; omega)
    · exact absurd hf (by have := fuelNeedMembers_pos ms; omega)
  | succ f ih =>
    obtain ⟨ihV, ihE, ihM⟩ := ih
    refine ⟨?_, ?_, ?_⟩
    · intro j rest hwf hf hnd
      cases j with
      | null =>
        rw [dumpsC_null]
        rfl
      | bool b =>
        cases b with
        | false => rw [dumpsC_false]; rfl
        | true => rw [dumpsC_true]; rfl
      | num n =>
        rw [dumpsC_num]
        exact parseV_num_case f n rest hnd
      | str s =>
        rw [dumpsC_str]
        unfold dumpStr
        simp only [List.cons_append, List.append_assoc, List.nil_append]
        rw [parseV_succ, if_neg (by decide), if_neg (by decide), if_neg (by decide), if_pos rfl,
          parseStrAux_escape]
      | arr xs =>
        rw [dumpsC_arr]
        simp only [List.cons_append, List.append_assoc, List.nil_append]
        rw [parseV_succ, if_neg (by decide), if_neg (by decide), if_neg (by decide),
          if_neg (by decide), if_pos rfl]
        cases xs with
        | nil =>
          rw [dumpsArr_nil]
          rfl
        | cons x t =>
          obtain ⟨c0, t0, harr, hne0, _⟩ := dumpsArr_head (x :: t) (by simp)
          rw [harr]
          simp only [List.cons_append]
          show (if c0 = ']' then some (Json.arr [], t0 ++ ']' :: rest)
            else
              match parseElems f (c0 :: (t0 ++ ']' :: rest)) with
              | some (xs2, r) => some (.arr xs2, r)
              | none => none) = _
          rw [if_neg hne0, ← List.cons_append, ← harr]
          have hfe : fuelNeedElems (x :: t) ≤ f := by
            rw [fuelNeed_arr] at hf
            omega
          rw [ihE (x :: t) rest (by rw [wfJ_arr] at hwf; exact hwf) (by simp) hfe]
      | obj fs =>
        rw [dumpsC_obj]
        simp only [List.cons_append, List.append_assoc, List.nil_append]
        rw [parseV_succ, if_neg (by decide), if_neg (by decide), if_neg (by decide),
          if_neg (by decide), if_neg (by decide), if_pos rfl]
        cases fs with
        | nil =>
          rw [dumpsObj_nil]
          rfl
        | cons p t =>
          obtain ⟨t0, hobj⟩ := dumpsObj_head (p :: t) (by simp)
          rw [hobj]
          simp only [List.cons_append]
          show (if '"' = '\x7d' then some (Json.obj [], t0 ++ '\x7d' :: rest)
            else
              match parseMembers f ('"' :: (t0 ++ '\x7d' :: rest)) with
              | some (ms2, r) => some (.obj (dedupeKV ms2), r)
              | none => none) = _
          rw [if_neg (by decide), ← List.cons_append, ← hobj]
          rw [wfJ_obj, Bool.and_eq_true] at hwf
          have hfm : fuelNeedMembers (p :: t) ≤ f := by
            rw [fuelNeed_obj] at hf
            omega
          rw [ihM (p :: t) rest hwf.2 (by simp) hfm]
          show some (Json.obj (dedupeKV (p :: t)), rest) = _
          rw [dedupeKV_of_distinct _ hwf.1]
    · intro xs rest hwf hne hf
      cases xs with
      | nil => exact absurd rfl hne
      | cons x t =>
        rw [wfArr_cons, Bool.and_eq_true] at hwf
        rw [fuelNeedElems_cons] at hf
        rw [parseElems_succ]
        cases t with
        | nil =>
          rw [fuelNeedElems_nil] at hf
          rw [dumpsArr_single, ihV x (']' :: rest) hwf.1 (by omega) rfl]
          rfl
        | cons y t2 =>
          rw [dumpsArr_cons2]
          simp only [List.append_assoc, List.cons_append]
          rw [ihV x (',' :: ' ' :: (dumpsArr (y :: t2) ++ ']' :: rest)) hwf.1 (by omega) rfl]
          show (match parseElems f (skipWs (' ' :: (dumpsArr (y :: t2) ++ ']' :: rest))) with
            | some (xs2, r3) => some (x :: xs2, r3)
            | none => none) = some (x :: y :: t2, rest)
          rw [skipWs_space]
          obtain ⟨c0, t0, harr, _, hws0⟩ := dumpsArr_head (y :: t2) (by simp)
          rw [harr]
          simp only [List.cons_append]
          rw [skipWs_head _ _ hws0, ← List.cons_append, ← harr,
            ihE (y :: t2) rest hwf.2 (by simp) (by omega)]
    · intro ms rest hwf hne hf
      cases ms with
      | nil => exact absurd rfl hne
      | cons p t =>
        obtain ⟨k, v⟩ := p
        rw [wfFields_cons, Bool.and_eq_true] at hwf
        rw [fuelNeedMembers_cons] at hf
        cases t with
        | nil =>
          rw [fuelNeedMembers_nil] at hf
          rw [dumpsObj_single]
          unfold dumpStr
          simp only [List.cons_append, List.append_assoc, List.nil_append]
          rw [parseMembers_cons_quote, parseStrAux_escape]
          show (match parseV f (skipWs (' ' :: (dumpsC v ++ '\x7d' :: rest))) with
            | some (v2, r3) =>
              match r3 with
              | ',' :: r4 =>
                match parseMembers f (skipWs r4) with
                | some (ms2, r5) => some ((String.mk k.data, v2) :: ms2, r5)
                | none => none
              | '\x7d' :: r4 => some ([(String.mk k.data, v2)], r4)
              | _ => none
            | none => none) = some ([(k, v)], rest)
          rw [skipWs_space]
          obtain ⟨c0, t0, hv0, _, hws0⟩ := dumpsC_head v
          rw [hv0]
          simp only [List.cons_append]
          rw [skipWs_head _ _ hws0, ← List.cons_append, ← hv0,
            ihV v ('\x7d' :: rest) hwf.1 (by omega) rfl]
          rfl
        | cons q t2 =>
          rw [dumpsObj_cons2]
          unfold dumpStr
          simp only [List.cons_append, List.append_assoc, List.nil_append]
          rw [parseMembers_cons_quote, parseStrAux_escape]
          show (match parseV f (skipWs (' ' :: (dumpsC v ++ ',' :: ' ' :: (dumpsObj (q :: t2) ++ '\x7d' :: rest)))) with
            | some (v2, r3) =>
              match r3 with
              | ',' :: r4 =>
                match parseMembers f (skipWs r4) with
                | some (ms2, r5) => some ((String.mk k.data, v2) :: ms2, r5)
                | none => none
              | '\x7d' :: r4 => some ([(String.mk k.data, v2)], r4)
              | _ => none
            | none => none) = some ((k, v) :: q :: t2, rest)
          rw [skipWs_space]
          obtain ⟨c0, t0, hv0, _, hws0⟩ := dumpsC_head v
          rw [hv0]
          simp only [List.cons_append]
          rw [skipWs_head _ _ hws0, ← List.cons_append, ← hv0,
            ihV v (',' :: ' ' :: (dumpsObj (q :: t2) ++ '\x7d' :: rest)) hwf.1 (by omega) rfl]
          show (match parseMembers f (skipWs (' ' :: (dumpsObj (q :: t2) ++ '\x7d' :: rest))) with
            | some (ms2, r5) => some ((String.mk k.data, v) :: ms2, r5)
            | none => none) = some ((k, v) :: q :: t2, rest)
          rw [skipWs_space]
          obtain ⟨t3, hobj⟩ := dumpsObj_head (q :: t2) (by simp)
          rw [hobj]
          simp only [List.cons_append]
          rw [skipWs_head _ _ (by decide), ← List.cons_append, ← hobj,
            ihM (q :: t2) rest hwf.2 (by simp) (by omega)]

mutual

theorem fuelNeed_le_len : ∀ (j : Json), fuelNeed j ≤ (dumpsC j).length + 1
  | .null => by rw [fuelNeed_base.1]; omega
  | .bool b => by rw [fuelNeed_base.2.1 b]; omega
  | .num n => by rw [fuelNeed_base.2.2.1 n]; omega
  | .str s => by rw [fuelNeed_base.2.2.2 s]; omega
  | .arr xs => by
    have h := fuelNeedElems_le_len xs
    rw [fuelNeed_arr, dumpsC_arr]
    simp only [List.length_cons, List.length_append, List.length_singleton]
    omega
  | .obj fs => by
    have h := fuelNeedMembers_le_len fs
    rw [fuelNeed_obj, dumpsC_obj]
    simp only [List.length_cons, List.length_append, List.length_singleton]
    omega

theorem fuelNeedElems_le_len : ∀ (xs : List Json), fuelNeedElems xs ≤ (dumpsArr xs).length + 2
  | [] => by rw [fuelNeedElems_nil]; omega
  | [x] => by
    have h := fuelNeed_le_len x
    rw [fuelNeedElems_cons, fuelNeedElems_nil, dumpsArr_single]
    omega
  | x :: y :: t => by
    have h1 := fuelNeed_le_len x
    have h2 := fuelNeedElems_le_len (y :: t)
    rw [fuelNeedElems_cons, dumpsArr_cons2]
    simp only [List.length_append, List.length_cons]
    omega

theorem fuelNeedMembers_le_len :
    ∀ (fs : List (String × Json)), fuelNeedMembers fs ≤ (dumpsObj fs).length + 2
  | [] => by rw [fuelNeedMembers_nil]; omega
  | [(k, v)] => by
    have h := fuelNeed_le_len v
    rw [fuelNeedMembers_cons, fuelNeedMembers_nil, dumpsObj_single]
    simp only [List.length_append, List.length_cons]
    omega
  | (k, v) :: y :: t => by
    have h1 := fuelNeed_le_len v
    have h2 := fuelNeedMembers_le_len (y :: t)
    rw [fuelNeedMembers_cons, dumpsObj_cons2]
    simp only [List.length_append, List.length_cons]
    omega

end

/-- Serializing any well-formed JSON value and parsing it back yields the
original value: `json.loads` inverts `json.dumps`. -/
theorem loads_dumps (j : Json) (h : wfJ j = true) : loads (dumps j) = some j := by
  have hlen : (dumps j).length = (dumpsC j).length := rfl
  have hfuel : fuelNeed j ≤ (dumps j).length + 2 := by
    have := fuelNeed_le_len j
    omega
  have h1 := (parse_dumps ((dumps j).length + 2)).1 j [] h hfuel rfl
  rw [List.append_nil] at h1
  unfold loads
  rw [show (dumps j).data = dumpsC j from rfl, h1]
  rfl

/-! Lemmas about dictionary lookups. -/

theorem lookup_contains (fields : List (String × Json)) (k : String) :
    containsKey fields k = (lookupKey fields k).isSome := by
  unfold containsKey lookupKey
  cases hf : fields.find? (fun p => p.1 == k) with
  | none =>
    rw [List.find?_eq_none] at hf
    show fields.any (fun p => p.1 == k) = false
    rw [List.any_eq_false]
    intro p hp
    exact hf p hp
  | some q =>
    show fields.any (fun p => p.1 == k) = true
    rw [List.any_eq_true]
    have h1 := List.mem_of_find?_eq_some hf
    have h2 := List.find?_some hf
    exact ⟨q, h1, h2⟩

/-! Verification of the text-completion flow. -/

/-- At the text level (bodies already decoded), the two `except` clauses
turn every exception raised inside the `try` into a returned value, and
every failure into a string.  This is only half of the story: the decode
at line 41 runs inside the `except HTTPError` clause itself, outside the
protection of the `try`, which the byte-level theorem below accounts for. -/
theorem call_gemini_api_total (o : HttpOutcome) :
    ∃ v, call_gemini_api o = .ok v ∧
      (∀ e, geminiTry o = .error e → ∃ s, v = Json.str s) := by
  cases hg : geminiTry o with
  | ok v =>
    refine ⟨v, ?_, ?_⟩
    · unfold call_gemini_api
      rw [hg]
    · intro e he
      exact absurd he (by simp)
  | error e =>
    cases e with
    | httpError c b =>
      refine ⟨.str ("HTTP Error " ++ toString c ++ ": " ++ b), ?_, fun _ _ => ⟨_, rfl⟩⟩
      unfold call_gemini_api
      rw [hg]
    | valueError m =>
      refine ⟨.str ("Error: " ++ m), ?_, fun _ _ => ⟨_, rfl⟩⟩
      unfold call_gemini_api
      rw [hg]
      rfl
    | indexError m =>
      refine ⟨.str ("Error: " ++ m), ?_, fun _ _ => ⟨_, rfl⟩⟩
      unfold call_gemini_api
      rw [hg]
      rfl
    | keyError m =>
      refine ⟨.str ("Error: " ++ m), ?_, fun _ _ => ⟨_, rfl⟩⟩
      unfold call_gemini_api
      rw [hg]
      rfl
    | typeError m =>
      refine ⟨.str ("Error: " ++ m), ?_, fun _ _ => ⟨_, rfl⟩⟩
      unfold call_gemini_api
      rw [hg]
      rfl
    | attributeError m =>
      refine ⟨.str ("Error: " ++ m), ?_, fun _ _ => ⟨_, rfl⟩⟩
      unfold call_gemini_api
      rw [hg]
      rfl
    | unicodeDecodeError m =>
      refine ⟨.str ("Error: " ++ m), ?_, fun _ _ => ⟨_, rfl⟩⟩
      unfold call_gemini_api
      rw [hg]
      rfl
    | otherError m =>
      refine ⟨.str ("Error: " ++ m), ?_, fun _ _ => ⟨_, rfl⟩⟩
      unfold call_gemini_api
      rw [hg]
      rfl

/-- The counterexample to claim C3 as frozen: an HTTP error response whose
body is not valid UTF-8 (here the single byte 0xFF) makes line 41 raise a
`UnicodeDecodeError` inside the `except HTTPError` clause, where no handler
protects it, so the exception propagates to the caller instead of being
returned as a string. -/
theorem call_gemini_api_raw_raises_eval :
    call_gemini_api_raw (.httpError 500 [255]) =
      .error (.unicodeDecodeError utf8DecodeErrMsg) := rfl

/-- Claim C3, as the code behaves: a success outcome always yields a
returned value (any exception in the `try` is converted to a string), a
network error is returned as an "Error: ..." string, and an HTTP error
with a UTF-8-decodable body is returned as an "HTTP Error code: body"
string; but an HTTP error whose body is not valid UTF-8 makes the decode
at line 41 raise inside the `except HTTPError` clause, and that
`UnicodeDecodeError` propagates to the caller uncaught. -/
theorem call_gemini_api_raw_total (o : RawHttpOutcome) :
    (∀ bs, o = .success bs → ∃ v, call_gemini_api_raw o = .ok v) ∧
    (∀ m, o = .netError m →
      call_gemini_api_raw o = .ok (.str ("Error: " ++ m))) ∧
    (∀ c bs cs, o = .httpError c bs → utf8Decode bs = some cs →
      call_gemini_api_raw o =
        .ok (.str ("HTTP Error " ++ toString c ++ ": " ++ String.mk cs))) ∧
    (∀ c bs, o = .httpError c bs → utf8Decode bs = none →
      call_gemini_api_raw o = .error (.unicodeDecodeError utf8DecodeErrMsg)) := by
  refine ⟨?_, ?_, ?_, ?_⟩
  · intro bs ho
    subst ho
    cases hd : utf8Decode bs with
    | some cs =>
      obtain ⟨v, hv, _⟩ := call_gemini_api_total (.success (String.mk cs))
      refine ⟨v, ?_⟩
      unfold call_gemini_api_raw
      dsimp only []
      rw [hd]
      exact hv
    | none =>
      refine ⟨.str ("Error: " ++ utf8DecodeErrMsg), ?_⟩
      unfold call_gemini_api_raw
      dsimp only []
      rw [hd]
  · intro m ho
    subst ho
    rfl
  · intro c bs cs ho hd
    subst ho
    unfold call_gemini_api_raw
    dsimp only []
    rw [hd]
    rfl
  · intro c bs ho hd
    subst ho
    unfold call_gemini_api_raw
    dsimp only []
    rw [hd]

/-- Claim C6: an HTTP-level error response with status `c` and error body `b`
is returned as exactly the string `"HTTP Error c: b"`, which in particular
begins with `"HTTP Error "` followed by the status code. -/
theorem call_gemini_api_httpError (c : Nat) (b : String) :
    call_gemini_api (.httpError c b) =
      .ok (.str ("HTTP Error " ++ toString c ++ ": " ++ b)) ∧
    ∃ tail, "HTTP Error " ++ toString c ++ ": " ++ b = "HTTP Error " ++ (toString c ++ tail) := by
  refine ⟨rfl, ": " ++ b, ?_⟩
  rw [String.append_assoc, String.append_assoc]

theorem geminiExtract_deep (fields cf cnf pf : List (String × Json))
    (cs ps : List Json)
    (hcand : lookupKey fields "candidates" = some (.arr (.obj cf :: cs)))
    (hcontent : lookupKey cf "content" = some (.obj cnf))
    (hparts : lookupKey cnf "parts" = some (.arr (.obj pf :: ps))) :
    geminiExtract (.obj fields) = .ok ((lookupKey pf "text").getD (.str "")) := by
  simp only [geminiExtract, pyContains, pySubscript, pyLen, pyIndex0, pyGet,
    lookup_contains, hcand, hcontent, hparts, Option.isSome_some, List.length_cons]
  simp

/-- Claim C2: when the parsed body has the full candidate structure, the
returned string is exactly the first part's `text` value, and the empty
string when the `text` key is absent. -/
theorem call_gemini_api_text (body : String) (fields cf cnf pf : List (String × Json))
    (cs ps : List Json) (t : String)
    (hload : loads body = some (.obj fields))
    (hcand : lookupKey fields "candidates" = some (.arr (.obj cf :: cs)))
    (hcontent : lookupKey cf "content" = some (.obj cnf))
    (hparts : lookupKey cnf "parts" = some (.arr (.obj pf :: ps))) :
    (lookupKey pf "text" = some (.str t) →
      call_gemini_api (.success body) = .ok (.str t)) ∧
    (lookupKey pf "text" = none →
      call_gemini_api (.success body) = .ok (.str "")) := by
  have hext := geminiExtract_deep fields cf cnf pf cs ps hcand hcontent hparts
  have hcall : call_gemini_api (.success body) =
      .ok ((lookupKey pf "text").getD (.str "")) := by
    unfold call_gemini_api geminiTry
    dsimp only []
    rw [hload]
    dsimp only []
    rw [hext]
  constructor
  · intro htext
    rw [hcall, htext]
    rfl
  · intro hnone
    rw [hcall, hnone]
    rfl

/-- Claim C7: whenever the candidate path is broken in one of the enumerated
ways, the call returns the re-serialized response, and parsing that string
yields a JSON value equal to the original parsed response. -/
theorem call_gemini_api_fallback (body : String) (fields : List (String × Json))
    (hload : loads body = some (.obj fields))
    (hmiss :
      lookupKey fields "candidates" = none ∨
      lookupKey fields "candidates" = some (.arr []) ∨
      (∃ cf cs, lookupKey fields "candidates" = some (.arr (.obj cf :: cs)) ∧
        lookupKey cf "content" = none) ∨
      (∃ cf cs cnf, lookupKey fields "candidates" = some (.arr (.obj cf :: cs)) ∧
        lookupKey cf "content" = some (.obj cnf) ∧ lookupKey cnf "parts" = none) ∨
      (∃ cf cs cnf, lookupKey fields "candidates" = some (.arr (.obj cf :: cs)) ∧
        lookupKey cf "content" = some (.obj cnf) ∧
        lookupKey cnf "parts" = some (.arr []))) :
    call_gemini_api (.success body) = .ok (.str (dumps (.obj fields))) ∧
    loads (dumps (.obj fields)) = some (.obj fields) := by
  have hwf : wfJ (.obj fields) = true := loads_wf body _ hload
  have hext : geminiExtract (.obj fields) = .ok (.str (dumps (.obj fields))) := by
    rcases hmiss with h | h | ⟨cf, cs, h1, h2⟩ | ⟨cf, cs, cnf, h1, h2, h3⟩ |
      ⟨cf, cs, cnf, h1, h2, h3⟩
    · simp only [geminiExtract, pyContains, lookup_contains, h, Option.isSome_none]
    · simp only [geminiExtract, pyContains, pySubscript, pyLen, lookup_contains, h,
        Option.isSome_some, List.length_nil]
      simp
    · simp only [geminiExtract, pyContains, pySubscript, pyLen, pyIndex0,
        lookup_contains, h1, h2, Option.isSome_some, Option.isSome_none, List.length_cons]
      simp
    · simp only [geminiExtract, pyContains, pySubscript, pyLen, pyIndex0,
        lookup_contains, h1, h2, h3, Option.isSome_some, Option.isSome_none,
        List.length_cons]
      simp
    · simp only [geminiExtract, pyContains, pySubscript, pyLen, pyIndex0,
        lookup_contains, h1, h2, h3, Option.isSome_some, List.length_cons,
        List.length_nil]
      simp
  refine ⟨?_, loads_dumps _ hwf⟩
  unfold call_gemini_api geminiTry
  dsimp only []
  rw [hload]
  dsimp only []
  rw [hext]

/-! Verification of the image-generation flow. -/

/-- Claim C10: a first image object whose first present candidate key is
bound to a falsy value is reported as "no base64 image found"; no decode is
attempted and no file written. -/
theorem pixelart_falsy_payload (fields imgFields : List (String × Json))
    (restImgs : List Json) (v : Json) (fs : FS)
    (himg : lookupKey fields "images" = some (.arr (.obj imgFields :: restImgs)))
    (hsearch : searchKeys imgFields candidateKeys = some v)
    (hfalsy : pyFalsy v = true) :
    runImageFlow (.obj fields) fs = (fs, "Unexpected error: " ++ noImageMsg) := by
  have hex : extractB64 (.obj fields) = .ok (some v) := by
    simp only [extractB64, himg, pyIndex0]
    rw [hsearch]
  unfold runImageFlow tryImageFlow
  rw [hex]
  dsimp only []
  rw [if_pos hfalsy]
  rfl

/-- Claim C4, as the code behaves: an empty `images` array hits the
unguarded first-element access, so the flow reports an index error, not the
"no base64 image found" failure; the no-image failure is reported exactly
when the response matches none of the three recognized shapes.  No file is
written in either case. -/
theorem pixelart_no_image_report :
    (∀ (fields : List (String × Json)) (fs : FS),
      lookupKey fields "images" = some (.arr []) →
      runImageFlow (.obj fields) fs = (fs, "Unexpected error: list index out of range")) ∧
    (∀ (j : Json) (fs : FS), matchesNoShape j = true →
      runImageFlow j fs = (fs, "Unexpected error: " ++ noImageMsg)) := by
  constructor
  · intro fields fs h
    have hex : extractB64 (.obj fields) = .error (.indexError "list index out of range") := by
      simp only [extractB64, h, pyIndex0]
    unfold runImageFlow tryImageFlow
    rw [hex]
    rfl
  · intro j fs h
    cases j with
    | obj fields =>
      have h2 : containsKey fields "images" = false := by
        simpa [matchesNoShape] using h
      rw [lookup_contains] at h2
      have hnone : lookupKey fields "images" = none :=
        Option.not_isSome_iff_eq_none.mp (by simp [h2])
      have hex : extractB64 (.obj fields) = .ok none := by
        simp only [extractB64, hnone]
      unfold runImageFlow tryImageFlow
      rw [hex]
      rfl
    | arr xs =>
      cases xs with
      | nil => rfl
      | cons x t => simp [matchesNoShape] at h
    | str s => simp [matchesNoShape] at h
    | null => rfl
    | bool b => rfl
    | num n => rfl

/-- The counterexample to claim C4 as frozen: on `{"images": []}` the flow
reports an index error, which is not the "no base64 image found" report. -/
theorem pixelart_empty_images_eval :
    runImageFlow (.obj [("images", .arr [])]) ⟨[], []⟩ =
      (⟨[], []⟩, "Unexpected error: list index out of range") ∧
    "Unexpected error: list index out of range" ≠ "Unexpected error: " ++ noImageMsg :=
  ⟨rfl, by decide⟩

/-- Claim C1, as the code behaves: the dictionary shape does yield the raw
string, but a plain-string first element is wrapped in a one-element list,
so decoding always fails with the "Base64 decode failed" report instead of
saving the image. -/
theorem pixelart_raw_string_eval :
    (∀ b : String,
      extractB64 (.obj [("images", .arr [.obj [("image_b64", .str b)]])]) =
        .ok (some (.str b))) ∧
    extractB64 (.obj [("images", .arr [.str "QUJD"])]) = .ok (some (.arr [.str "QUJD"])) ∧
    (∀ fs : FS,
      runImageFlow (.obj [("images", .arr [.str "QUJD"])]) fs =
        (fs,
          "Unexpected error: Base64 decode failed: argument should be a bytes-like object or ASCII string, not \x27list\x27")) :=
  ⟨fun _ => rfl, rfl, fun _ => rfl⟩

/-! Verification of the text-flow entry point. -/

/-- Claim C8, amended: environment values are used when both are non-empty;
when either is missing or empty, exactly two positional arguments are
required, otherwise the process exits with status 1, the two usage lines on
standard error and nothing on standard output. -/
theorem text_main_resolution :
    (∀ (k m : String) (argv : List String), k ≠ "" → m ≠ "" →
      textMainResolve (some k) (some m) argv = .run k m) ∧
    (∀ (ek em : Option String) (argv : List String),
      (optTruthy ek && optTruthy em) = false → argv.length ≠ 3 →
      textMainResolve ek em argv = .exited 1 [] [usageLine1, usageLine2]) ∧
    (∀ (ek em : Option String) (a0 a1 a2 : String),
      (optTruthy ek && optTruthy em) = false →
      textMainResolve ek em [a0, a1, a2] = .run a1 a2) := by
  refine ⟨?_, ?_, ?_⟩
  · intro k m argv hk hm
    have h1 : k.isEmpty = false := by
      rw [Bool.eq_false_iff]
      intro hh
      exact hk ((String.isEmpty_iff k).mp hh)
    have h2 : m.isEmpty = false := by
      rw [Bool.eq_false_iff]
      intro hh
      exact hm ((String.isEmpty_iff m).mp hh)
    have hc : (optTruthy (some k) && optTruthy (some m)) = true := by
      simp [optTruthy, h1, h2]
    unfold textMainResolve
    rw [if_pos hc]
    rfl
  · intro ek em argv hf hlen
    unfold textMainResolve
    rw [if_neg (by simp [hf]), if_pos hlen]
  · intro ek em a0 a1 a2 hf
    unfold textMainResolve
    rw [if_neg (by simp [hf]), if_neg (by simp)]
    rfl

/-- The counterexample to claim C8 as frozen: with `GEMINI_API_KEY` set to
the empty string and `GEMINI_MESSAGE` set, the set values are not used; the
process exits with the usage message instead. -/
theorem text_main_empty_key_eval :
    textMainResolve (some "") (some "hi") ["prog"] =
      .exited 1 [] [usageLine1, usageLine2] ∧
    textMainResolve (some "") (some "hi") ["prog"] ≠ .run "" "hi" :=
  ⟨rfl, by decide⟩

/-! Concrete witnesses instantiating the theorems above. -/

theorem call_gemini_api_text_witness :
    call_gemini_api (.success "\x7b\"candidates\": [\x7b\"content\": \x7b\"parts\": [\x7b\"text\": \"hi\"\x7d]\x7d\x7d]\x7d") =
      .ok (.str "hi") :=
  (call_gemini_api_text
    "\x7b\"candidates\": [\x7b\"content\": \x7b\"parts\": [\x7b\"text\": \"hi\"\x7d]\x7d\x7d]\x7d"
    [("candidates", .arr [.obj [("content", .obj [("parts", .arr [.obj [("text", .str "hi")]])])]])]
    [("content", .obj [("parts", .arr [.obj [("text", .str "hi")]])])]
    [("parts", .arr [.obj [("text", .str "hi")]])]
    [("text", .str "hi")]
    [] [] "hi" rfl rfl rfl rfl).1 rfl

theorem call_gemini_api_fallback_witness :
    call_gemini_api (.success "\x7b\"foo\": 1\x7d") =
      .ok (.str (dumps (.obj [("foo", .num 1)]))) ∧
    loads (dumps (.obj [("foo", .num 1)])) = some (.obj [("foo", .num 1)]) :=
  call_gemini_api_fallback "\x7b\"foo\": 1\x7d" [("foo", .num 1)] rfl (Or.inl rfl)

theorem pixelart_falsy_payload_witness :
    runImageFlow (.obj [("images", .arr [.obj [("image_b64", .str "")]])]) ⟨[], []⟩ =
      (⟨[], []⟩, "Unexpected error: " ++ noImageMsg) :=
  pixelart_falsy_payload [("images", .arr [.obj [("image_b64", .str "")]])]
    [("image_b64", .str "")] [] (.str "") ⟨[], []⟩ rfl rfl rfl

theorem pixelart_no_image_report_witness :
    runImageFlow (.obj [("k", .str "v"), ("images", .arr [])]) ⟨[], []⟩ =
      (⟨[], []⟩, "Unexpected error: list index out of range") ∧
    runImageFlow (.num 7) ⟨[], []⟩ = (⟨[], []⟩, "Unexpected error: " ++ noImageMsg) :=
  ⟨pixelart_no_image_report.1 [("k", .str "v"), ("images", .arr [])] ⟨[], []⟩ rfl,
    pixelart_no_image_report.2 (.num 7) ⟨[], []⟩ rfl⟩

theorem text_main_resolution_witness :
    textMainResolve (some "k") (some "hello") [] = .run "k" "hello" ∧
    textMainResolve none none ["prog"] = .exited 1 [] [usageLine1, usageLine2] ∧
    textMainResolve none none ["prog", "a", "b"] = .run "a" "b" :=
  ⟨text_main_resolution.1 "k" "hello" [] (by decide) (by decide),
    text_main_resolution.2.1 none none ["prog"] rfl (by decide),
    text_main_resolution.2.2 none none "prog" "a" "b" rfl⟩

theorem call_gemini_api_raw_total_witness :
    call_gemini_api_raw (.netError "timed out") = .ok (.str ("Error: " ++ "timed out")) ∧
    call_gemini_api_raw (.httpError 404 [110, 102]) =
      .ok (.str ("HTTP Error " ++ toString 404 ++ ": " ++ String.mk ['n', 'f'])) ∧
    call_gemini_api_raw (.httpError 500 [255]) =
      .error (.unicodeDecodeError utf8DecodeErrMsg) :=
  ⟨(call_gemini_api_raw_total (.netError "timed out")).2.1 "timed out" rfl,
    (call_gemini_api_raw_total (.httpError 404 [110, 102])).2.2.1
      404 [110, 102] ['n', 'f'] rfl (by decide),
    (call_gemini_api_raw_total (.httpError 500 [255])).2.2.2
      500 [255] rfl (by decide)⟩

theorem call_gemini_api_httpError_witness :
    call_gemini_api (.httpError 404 "nf") =
      .ok (.str ("HTTP Error " ++ toString 404 ++ ": " ++ "nf")) ∧
    ∃ tail, "HTTP Error " ++ toString 404 ++ ": " ++ "nf" =
      "HTTP Error " ++ (toString 404 ++ tail) :=
  call_gemini_api_httpError 404 "nf"
